import Mathlib

set_option maxRecDepth 16384

/-!
Verification of the image-processing pipeline of the foto-project repository
(`04_image_processing.js`), via a shallow embedding of its pure string
helpers and of the pipeline stages.  External HTTP capabilities
(OpenAI assistant, Replicate, TinyPNG, the hosting worker) are modelled as
oracle functions supplying the responses the code would observe; everything
the code itself computes is translated faithfully, including JavaScript
quirks that matter (string truthiness `'' == false`, ASCII-only `\b` word
boundaries, insertion-ordered `Set` deduplication).

Strings are modelled as Lean `String` (a list of Unicode scalar values);
JavaScript's UTF-16 `length`/`substring` agree with this model on the
Basic Multilingual Plane, which covers every character the program
manipulates.  `Date.now()` is threaded through as an explicit `ts : Nat`
parameter rendered in decimal.
-/

namespace FotoProject

/-! ### JavaScript string primitives -/

/-- The character set matched by JavaScript's `\s` (and removed by
`String.prototype.trim`): ASCII whitespace, NBSP, the Unicode space
separators, line/paragraph separators and the BOM. -/
def jsIsSpace (c : Char) : Bool :=
  c == ' ' || c == '\t' || c == '\n' || c.toNat == 0x0B || c.toNat == 0x0C ||
  c == '\r' || c.toNat == 0xA0 || c.toNat == 0x1680 ||
  (0x2000 ≤ c.toNat && c.toNat ≤ 0x200A) ||
  c.toNat == 0x2028 || c.toNat == 0x2029 || c.toNat == 0x202F ||
  c.toNat == 0x205F || c.toNat == 0x3000 || c.toNat == 0xFEFF

/-- JavaScript `String.prototype.trim` on a character list: strip `jsIsSpace`
characters from both ends. -/
def jsTrimL (l : List Char) : List Char :=
  ((l.dropWhile jsIsSpace).reverse.dropWhile jsIsSpace).reverse

/-- JavaScript number-to-string rendering for a natural number (decimal
digits, most significant first).  `fuel` only drives the recursion
(`n / 10 < n` for `n ≥ 10`, so `n + 1` steps always suffice). -/
def natDecimalAux : Nat → Nat → List Char
  | 0, _ => []
  | fuel + 1, n =>
    if n < 10 then [Char.ofNat (48 + n)]
    else natDecimalAux fuel (n / 10) ++ [Char.ofNat (48 + n % 10)]

def natDecimal (n : Nat) : List Char :=
  natDecimalAux (n + 1) n

/-- JavaScript `str.split(re)` for a single-character-class regex: split on every
character satisfying `p`, keeping empty fields (JS semantics). -/
def splitP (p : Char → Bool) : List Char → List (List Char)
  | [] => [[]]
  | c :: t =>
    match splitP p t with
    | [] => [[]]
    | h :: r => if p c then [] :: h :: r else (c :: h) :: r

/-- Replace every maximal run of characters satisfying `p` by the single
character `rep` — the effect of `str.replace(/P+/g, rep)`.  `prev` records
whether the previous character belonged to a run. -/
def collapseRunsAux (p : Char → Bool) (rep : Char) (prev : Bool) : List Char → List Char
  | [] => []
  | c :: t =>
    if p c then
      if prev then collapseRunsAux p rep true t
      else rep :: collapseRunsAux p rep true t
    else c :: collapseRunsAux p rep false t

def collapseRuns (p : Char → Bool) (rep : Char) (l : List Char) : List Char :=
  collapseRunsAux p rep false l

/-! ### Transliteration (`transliterate`, 04_image_processing.js:740) -/

/-- The rule table of `transliterate`, in source order. -/
def translitRules : List (Char × String) :=
  [('а', "a"), ('б', "b"), ('в', "v"), ('г', "g"), ('д', "d"),
   ('е', "e"), ('ё', "yo"), ('ж', "zh"), ('з', "z"), ('и', "i"),
   ('й', "y"), ('к', "k"), ('л', "l"), ('м', "m"), ('н', "n"),
   ('о', "o"), ('п', "p"), ('р', "r"), ('с', "s"), ('т', "t"),
   ('у', "u"), ('ф', "f"), ('х', "kh"), ('ц', "ts"), ('ч', "ch"),
   ('ш', "sh"), ('щ', "sch"), ('ъ', ""), ('ы', "y"), ('ь', ""),
   ('э', "e"), ('ю', "yu"), ('я', "ya"),
   ('А', "A"), ('Б', "B"), ('В', "V"), ('Г', "G"), ('Д', "D"),
   ('Е', "E"), ('Ё', "Yo"), ('Ж', "Zh"), ('З', "Z"), ('И', "I"),
   ('Й', "Y"), ('К', "K"), ('Л', "L"), ('М', "M"), ('Н', "N"),
   ('О', "O"), ('П', "P"), ('Р', "R"), ('С', "S"), ('Т', "T"),
   ('У', "U"), ('Ф', "F"), ('Х', "Kh"), ('Ц', "Ts"), ('Ч', "Ch"),
   ('Ш', "Sh"), ('Щ', "Sch"), ('Ъ', ""), ('Ы', "Y"), ('Ь', ""),
   ('Э', "E"), ('Ю', "Yu"), ('Я', "Ya")]

def lookupRule (c : Char) : Option String :=
  (translitRules.find? (fun p => p.1 == c)).map (·.2)

/-- The lookup `rules[char] || char`: an empty replacement string is falsy in
JavaScript, so the hard/soft signs (mapped to `''`) fall through to the
original character. -/
def translitCharL (c : Char) : List Char :=
  match lookupRule c with
  | some s => if s = "" then [c] else s.data
  | none => [c]

def translitL (l : List Char) : List Char :=
  l.flatMap translitCharL

/-- The source function `transliterate(text)` (04_image_processing.js:740). -/
def transliterate (t : String) : String :=
  ⟨translitL t.data⟩

/-! ### SEO filename validation (`validateSeoFilename`, 04_image_processing.js:714) -/

/-- JavaScript `str.toLowerCase()`, modelled on the ASCII and Cyrillic repertoire the
program manipulates (other code points are unchanged, and are replaced by
`-` downstream in any case). -/
def jsLowerChar (c : Char) : Char :=
  if 'A' ≤ c ∧ c ≤ 'Z' then Char.ofNat (c.toNat + 32)
  else if 'А' ≤ c ∧ c ≤ 'Я' then Char.ofNat (c.toNat + 32)
  else if c = 'Ё' then 'ё'
  else c

def seoAllowedChar (c : Char) : Bool :=
  (97 ≤ c.toNat && c.toNat ≤ 122) || (48 ≤ c.toNat && c.toNat ≤ 57) || c == '-'

/-- The template `FALLBACK_FILENAME` with `Date.now()` substituted for the timestamp. -/
def fallbackName (ts : Nat) : String :=
  ⟨"product-image-".data ++ natDecimal ts⟩

/-- The extension strip: `filename.split('.')` then `parts.slice(0, -1).join('.')` when
there is more than one part: strip the final extension. -/
def stripExtension (filename : String) : String :=
  let parts := splitP (· == '.') filename.data
  if parts.length > 1 then
    ⟨(parts.dropLast.intersperse ['.']).flatten⟩
  else filename

/-- The cleanup applied to the extension-less name: lowercase, replace
characters outside `[a-z0-9-]` by `-`, collapse hyphen runs, strip
leading/trailing hyphens, cap at `FILENAME_MAX_LENGTH = 80`, and fall back
to `product-image-<timestamp>` if empty. -/
def cleanSeoName (name : String) (ts : Nat) : String :=
  let l1 := name.data.map jsLowerChar
  let l2 := l1.map (fun c => if seoAllowedChar c then c else '-')
  let l3 := collapseRuns (· == '-') '-' l2
  let l4 := (l3.dropWhile (· == '-')).reverse.dropWhile (· == '-') |>.reverse
  let l5 := if 80 < l4.length then l4.take 80 else l4
  if l5 = [] then fallbackName ts else ⟨l5⟩

/-- The source function `validateSeoFilename(filename)` (04_image_processing.js:714), with
`Date.now()` supplied as `ts`. -/
def validateSeoFilename (filename : String) (ts : Nat) : String :=
  if filename = "" then fallbackName ts
  else cleanSeoName (stripExtension filename) ts

/-! ### Alt-tag validation (`validateAltTag`, 04_image_processing.js:692) -/

/-- JavaScript regex word characters (`\w`) in non-unicode mode:
`[A-Za-z0-9_]` only — Cyrillic letters are *not* word characters. -/
def isWordChar (c : Char) : Bool :=
  ('a' ≤ c && c ≤ 'z') || ('A' ≤ c && c ≤ 'Z') || ('0' ≤ c && c ≤ '9') || c == '_'

def isWordO : Option Char → Bool
  | none => false
  | some c => isWordChar c

/-- Case folding used by the `/i` flag on the stop-word pattern: map ASCII
and Cyrillic lowercase letters to uppercase. -/
def foldCase (c : Char) : Char :=
  if 'a' ≤ c ∧ c ≤ 'z' then Char.ofNat (c.toNat - 32)
  else if 'а' ≤ c ∧ c ≤ 'я' then Char.ofNat (c.toNat - 32)
  else if c = 'ё' then 'Ё'
  else c

/-- Does the stop word `w` match at the head of `l`, with `\b` boundaries
on both sides (`prev` is the character preceding `l` in the original
string)?  Mirrors `/\b(…)\b/gi` matching in non-unicode mode: a boundary
holds where exactly one neighbour is a `\w` character. -/
def wordMatch (w : List Char) (prev : Option Char) (l : List Char) : Bool :=
  ((l.take w.length).map foldCase == w.map foldCase) &&
  (isWordO prev != isWordO l.head?) &&
  (isWordO ((l.take w.length).getLast?) != isWordO ((l.drop w.length).head?))

def stopWord1 : List Char := "изображение".data
def stopWord2 : List Char := "фото".data
def stopWord3 : List Char := "картинка".data

/-- One pass of `replace(/\b(изображение|фото|картинка)\b/gi, '')` over the
original string; matching continues after a deleted word with the last
matched character as boundary context (the regex runs over the original
string).  `fuel` is a termination device — each step consumes at least one
character, and callers pass `l.length`. -/
def stripStopsF : Nat → Option Char → List Char → List Char
  | 0, _, l => l
  | fuel + 1, prev, l =>
    match l with
    | [] => []
    | c :: rest =>
      if wordMatch stopWord1 prev (c :: rest) then
        stripStopsF fuel ((c :: rest).take 11).getLast? ((c :: rest).drop 11)
      else if wordMatch stopWord2 prev (c :: rest) then
        stripStopsF fuel ((c :: rest).take 4).getLast? ((c :: rest).drop 4)
      else if wordMatch stopWord3 prev (c :: rest) then
        stripStopsF fuel ((c :: rest).take 8).getLast? ((c :: rest).drop 8)
      else c :: stripStopsF fuel (some c) rest

def stripStops (l : List Char) : List Char :=
  stripStopsF l.length none l

/-- The source function `validateAltTag(altTag, productName)` (04_image_processing.js:692):
falsy tag → template fallback; else trim, collapse whitespace, cap at
`ALT_TAG_MAX_LENGTH = 125` (`substring(0,122) + '...'`), remove the
stop words with the (ASCII-)word-boundary regex, and trim again. -/
def validateAltTag (altTag productName : String) : String :=
  if altTag = "" then "Изображение товара " ++ productName
  else
    let t1 := collapseRuns jsIsSpace ' ' (jsTrimL altTag.data)
    let t2 := if 125 < t1.length then t1.take 122 ++ "...".data else t1
    ⟨jsTrimL (stripStops t2)⟩

/-! ### Asset locator (`combineAllImages`, 04_image_processing.js:3002) -/

/-- The check `url.startsWith('http')` — the filter the locator applies after
trimming each candidate. -/
def startsWithHttp (u : String) : Bool :=
  u.data.take 4 == "http".data

/-- Parse one source string: split on `/[\n,]/`, trim each field, keep the
truthy entries starting with `http`. -/
def parseTier (s : String) : List String :=
  ((splitP (fun c => c == '\n' || c == ',') s.data).map
    (fun cs => (⟨jsTrimL cs⟩ : String))).filter
    (fun u => u != "" && startsWithHttp u)

/-- Insertion-ordered deduplication — `[...new Set(allImages)]` keeps the
first occurrence of every URL. -/
def dedupGo (acc : List String) : List String → List String
  | [] => acc
  | u :: t => dedupGo (if u ∈ acc then acc else acc ++ [u]) t

def dedupFirstSeen (l : List String) : List String :=
  dedupGo [] l

/-- The source function `combineAllImages(originalImages, supplierImages, additionalImages)`
(04_image_processing.js:3002; the `article` argument is only logged).
Priority 1 is the user-selected `additionalImages`, then the supplier
images, then the platform originals; a later tier is consulted only when
`allImages` is still empty, and a falsy (empty) source string is skipped. -/
def combineAllImages (originalImages supplierImages additionalImages : String) :
    List String :=
  let l1 := if additionalImages ≠ "" then parseTier additionalImages else []
  let l2 := if l1 = [] ∧ supplierImages ≠ "" then parseTier supplierImages else []
  let l3 := if l1 = [] ∧ l2 = [] ∧ originalImages ≠ "" then parseTier originalImages else []
  dedupFirstSeen (l1 ++ l2 ++ l3)

/-- The cap `allImageUrls.slice(0, 10)` performed by `analyzeImageSimple`
(04_image_processing.js:1199). -/
def imagesToProcess (originalImages supplierImages additionalImages : String) :
    List String :=
  (combineAllImages originalImages supplierImages additionalImages).take 10

/-- Modelled from the spec: the highest-priority tier that yields at least
one valid http URL (user-selected > supplier-parsed > platform-original);
stated in the spec's own terms to compare against `combineAllImages`. -/
def specHighestTier (additionalImages supplierImages originalImages : String) :
    List String :=
  if parseTier additionalImages ≠ [] then parseTier additionalImages
  else if parseTier supplierImages ≠ [] then parseTier supplierImages
  else parseTier originalImages

/-! ### Polling loops (`waitForReplicateResult`, 04_image_processing.js:2135;
`runAssistantAnalysis`, 04_image_processing.js:472) -/

/-- One status poll of a Replicate prediction: either the parsed body
(`status`, `output` — the empty string standing for a falsy/absent
output), or a thrown fetch/parse error. -/
inductive PollReply where
  | ok (status : String) (output : String)
  | fetchError (msg : String)

inductive WaitResult where
  | success (outputUrl : String)
  | failure (reason : String)
deriving DecidableEq

/-- The `while (attempts < maxAttempts)` loop of `waitForReplicateResult`.
`replies n` is the n-th poll's observation; the second component counts
polls performed.  `fuel` only drives the recursion: callers pass
`maxAttempts - attempts`, so the `fuel = 0` case coincides with the loop
guard failing (both are the timeout exit). -/
def waitReplicateAux (replies : Nat → PollReply) (maxAttempts attempts fuel : Nat) :
    WaitResult × Nat :=
  match fuel with
  | 0 => (.failure "timeout", attempts)
  | fuel + 1 =>
    if attempts < maxAttempts then
      match replies attempts with
      | .fetchError m => (.failure m, attempts + 1)
      | .ok st out =>
        if st = "succeeded" ∧ out ≠ "" then (.success out, attempts + 1)
        else if st = "failed" then (.failure "replicate_failed", attempts + 1)
        else waitReplicateAux replies maxAttempts (attempts + 1) fuel
    else (.failure "timeout", attempts)

/-- The source function `waitForReplicateResult(predictionId, token, maxWaitSeconds)`
(04_image_processing.js:2135): 1s sleep per iteration, hence
`maxAttempts = maxWaitSeconds`. -/
def waitForReplicateResult (replies : Nat → PollReply) (maxWaitSeconds : Nat) :
    WaitResult × Nat :=
  waitReplicateAux replies maxWaitSeconds 0 maxWaitSeconds

/-- The run-status poll of `runAssistantAnalysis`
(04_image_processing.js:472-505): `while (status === 'queued' ||
status === 'in_progress')` with `maxAttempts = 30`; after fetching a new
status the counter is incremented and `attempts >= 30` throws the timeout
error (even if that last status was terminal); a terminal exit other than
`completed` also throws.  The second component counts polls performed;
`fuel` (`= 30 - attempts` at every call) only drives the recursion. -/
def assistantPollAux (polls : Nat → String) (status : String) (attempts fuel : Nat) :
    Except String String × Nat :=
  match fuel with
  | 0 => (.error "Таймаут ожидания ответа от Assistant", attempts)
  | fuel + 1 =>
    if status = "queued" ∨ status = "in_progress" then
      let newStatus := polls attempts
      if attempts + 1 ≥ 30 then (.error "Таймаут ожидания ответа от Assistant", attempts + 1)
      else assistantPollAux polls newStatus (attempts + 1) fuel
    else
      ((if status = "completed" then .ok status
        else .error ("Assistant run завершился с ошибкой: " ++ status)), attempts)

def runAssistantPoll (polls : Nat → String) (status0 : String) :
    Except String String × Nat :=
  assistantPollAux polls status0 0 30

/-- A Replicate poll reply on which neither terminal branch fires: the
loop keeps waiting. -/
def nonTerminalReply : PollReply → Prop
  | .ok st out => ¬(st = "succeeded" ∧ out ≠ "") ∧ st ≠ "failed"
  | .fetchError _ => False

/-- An assistant run status that keeps the poll loop running. -/
def runningStatus (s : String) : Prop :=
  s = "queued" ∨ s = "in_progress"

/-! ### Stage 1 — description generator (`processOpenAIOriginals`,
04_image_processing.js:1237; `parseAssistantBatchResponse`,
04_image_processing.js:1958) -/

/-- A `.map` with the element's index, mirroring the JavaScript callbacks
`(item, index) => …`. -/
def idxMap (f : Nat → α → β) : Nat → List α → List β
  | _, [] => []
  | i, a :: t => f i a :: idxMap f (i + 1) t

structure DescRes where
  altTag : String
  seoFilename : String
deriving DecidableEq

/-- One entry of the assistant reply's `results` array; the empty string
models a missing or empty (falsy) field, matching `result.altTag || …`. -/
structure RawDesc where
  altTag : String
  seoFilename : String

/-- The slug `transliterate(s).toLowerCase().replace(/[^a-z0-9]/g, '-')` — the
synthesized fallback slug. -/
def slugify (s : String) : List Char :=
  (translitL s.data).map jsLowerChar |>.map
    (fun c => if ('a' ≤ c && c ≤ 'z') || ('0' ≤ c && c ≤ '9') then c else '-')

/-- The fallback pair synthesized for image number `n` (1-based), as built
by the group-failure handler and by `parseAssistantBatchResponse`'s
fallback paths: slug truncated with `.substring(0, 50)`. -/
def fallbackDesc (productName : String) (n : Nat) : DescRes :=
  ⟨productName ++ " - изображение " ++ (⟨natDecimal n⟩ : String),
   ⟨(slugify (productName ++ "-" ++ (⟨natDecimal n⟩ : String))).take 50⟩⟩

/-- The fallback pair of the unconfigured-assistant path
(04_image_processing.js:1243-1246) — identical except that the slug is
*not* truncated to 50 characters. -/
def basicDesc (productName : String) (n : Nat) : DescRes :=
  ⟨productName ++ " - изображение " ++ (⟨natDecimal n⟩ : String),
   ⟨slugify (productName ++ "-" ++ (⟨natDecimal n⟩ : String))⟩⟩

/-- The source function `parseAssistantBatchResponse(response, expectedCount, productName)`:
the reply is modelled at the level of what the `/\{[\s\S]*"results"[\s\S]*\}/`
regex plus `JSON.parse` yield — `some rs` when a JSON object with a
`results` array was extracted, `none` otherwise (no JSON found, parse
threw, or `results` missing/not an array; all those paths synthesize
`expectedCount` fallbacks with batch-local indices).  When the array is
present the code maps over *its* entries, ignoring `expectedCount`. -/
def parseAssistantBatchResponse (reply : Option (List RawDesc))
    (expectedCount : Nat) (productName : String) (ts : Nat) : List DescRes :=
  match reply with
  | some rs =>
    idxMap (fun i r =>
      ⟨validateAltTag
          (if r.altTag ≠ "" then r.altTag
           else productName ++ " - изображение " ++ (⟨natDecimal (i + 1)⟩ : String))
          productName,
        validateSeoFilename
          (if r.seoFilename ≠ "" then r.seoFilename
           else "product-" ++ (⟨natDecimal (i + 1)⟩ : String)) ts⟩) 0 rs
  | none => idxMap (fun i _ => fallbackDesc productName (i + 1)) 0 (List.range expectedCount)

/-- The `for (let i = 0; i < imageUrls.length; i += BATCH_SIZE)` grouping
with `BATCH_SIZE = 5`: consecutive slices of at most five images.  `fuel`
only drives the recursion (each step consumes five characters of a
non-empty list, so `l.length` steps always suffice). -/
def subBatchesF : Nat → List String → List (List String)
  | 0, _ => []
  | _, [] => []
  | fuel + 1, l => l.take 5 :: subBatchesF fuel (l.drop 5)

def subBatches (l : List String) : List (List String) :=
  subBatchesF l.length l

/-- What one sub-batch attempt observes: `.error` when any step of the
thread/message/run sequence threw (HTTP error, non-200, poll timeout),
`.ok reply` when an assistant reply text was fetched, with `reply` the
parse-level view used by `parseAssistantBatchResponse`. -/
abbrev GroupOracle := Nat → Except String (Option (List RawDesc))

/-- The body of the sub-batch loop for group `g` (images `5*g …`):
a caught group error synthesizes fallbacks with *global* 1-based indices
(`i + index + 1`); an obtained reply goes through
`parseAssistantBatchResponse`. -/
def groupResult (o : Except String (Option (List RawDesc))) (g : Nat)
    (batch : List String) (productName : String) (ts : Nat) : List DescRes :=
  match o with
  | .ok reply => parseAssistantBatchResponse reply batch.length productName ts
  | .error _ => idxMap (fun idx _ => fallbackDesc productName (5 * g + idx + 1)) 0 batch

def perGroupResults (oracle : GroupOracle) (imageUrls : List String)
    (productName : String) (ts : Nat) : List (List DescRes) :=
  idxMap (fun g batch => groupResult (oracle g) g batch productName ts) 0
    (subBatches imageUrls)

/-- The source function `processOpenAIOriginals(imageUrls, productName)`
(04_image_processing.js:1237): unconfigured assistant → per-image basic
tags; otherwise the grouped sub-batch loop accumulating into
`allResults`.  Total by construction — every per-group failure is caught
inside the loop, so no failure aborts the run. -/
def processOpenAIOriginals (assistantConfigured : Bool) (oracle : GroupOracle)
    (imageUrls : List String) (productName : String) (ts : Nat) : List DescRes :=
  if ¬assistantConfigured then
    idxMap (fun i _ => basicDesc productName (i + 1)) 0 imageUrls
  else
    (perGroupResults oracle imageUrls productName ts).flatten

/-! ### Stage 2 — resolution enhancer (`processReplicateWithFallback`,
04_image_processing.js:1350) -/

structure EnhOutcome where
  original : String
  processed : String
  wasEnhanced : Bool
  error : Option String
deriving DecidableEq

/-- What the per-image Replicate interaction observes: the submission
HTTP code and the sequence of status polls. -/
structure ReplicateImageOracle where
  submitCode : Nat
  pollReplies : Nat → PollReply

/-- The per-image closure of `processReplicateWithFallback`: non-201
submission throws; otherwise the prediction is polled with a 120s budget;
any failure is caught and falls back to the original URL. -/
def processImage (o : ReplicateImageOracle) (url : String) : EnhOutcome :=
  if o.submitCode ≠ 201 then
    ⟨url, url, false, some ("Replicate failed: " ++ (⟨natDecimal o.submitCode⟩ : String))⟩
  else
    match (waitForReplicateResult o.pollReplies 120).1 with
    | .success out => ⟨url, out, true, none⟩
    | .failure _ => ⟨url, url, false, some "Replicate processing failed"⟩

/-- The source function `processReplicateWithFallback(imageUrls)` (04_image_processing.js:1350):
no token → pass-through outcomes for every image; otherwise one
independent unit per image, results in input order (`Promise.all` over the
`map`). -/
def processReplicateWithFallback (replicateConfigured : Bool)
    (oracles : Nat → ReplicateImageOracle) (imageUrls : List String) : List EnhOutcome :=
  if ¬replicateConfigured then
    imageUrls.map (fun url => ⟨url, url, false, none⟩)
  else
    idxMap (fun i url => processImage (oracles i) url) 0 imageUrls

/-! ### Stage 3 — compression/hosting finisher
(`processUnifiedWebPOptimization`, 04_image_processing.js:1459) -/

structure PipelineResult where
  altTag : String
  seoFilename : String
  processedImageUrl : String
  confidence : Nat
deriving DecidableEq

/-- What the per-image finishing unit observes: whether the two-phase
TinyPNG conversion succeeded (`unifiedWebPConversion` catches its own
errors and only reports a flag), the hosting URL returned by
`uploadToImgBB` (`""` models its `null` failure result), and whether an
unexpected exception fired inside the unit (caught at
04_image_processing.js:1515). -/
structure FinisherOracle where
  webpSuccess : Bool
  uploadUrl : String
  throws : Bool

/-- The `analysisResults[index] || {…}` default record. -/
def analysisAt (analysisResults : List DescRes) (index : Nat) : DescRes :=
  (analysisResults[index]?).getD
    ⟨"Изображение " ++ (⟨natDecimal (index + 1)⟩ : String),
     "image-" ++ (⟨natDecimal (index + 1)⟩ : String)⟩

/-- The source function `processUnifiedWebPOptimization(enhancedImages, analysisResults)`
(04_image_processing.js:1459): missing TinyPNG *or* ImgBB key → pass the
enhancement-stage URL through with confidence 7 (enhanced) / 5 (not);
otherwise per image: WebP + hosting success → confidence 8 with the
hosting URL; any failure → the enhancement-stage URL with confidence
6 (enhanced) / 4 (not); a caught exception → confidence 3. -/
def processUnifiedWebPOptimization (webpConfigured : Bool)
    (oracles : Nat → FinisherOracle) (enhancedImages : List EnhOutcome)
    (analysisResults : List DescRes) : List PipelineResult :=
  if ¬webpConfigured then
    idxMap (fun index img =>
      let analysis := analysisAt analysisResults index
      ⟨analysis.altTag, analysis.seoFilename, img.processed,
        if img.wasEnhanced then 7 else 5⟩) 0 enhancedImages
  else
    idxMap (fun index img =>
      let analysis := analysisAt analysisResults index
      let o := oracles index
      if o.throws then
        ⟨analysis.altTag, analysis.seoFilename, img.processed, 3⟩
      else if o.webpSuccess ∧ o.uploadUrl ≠ "" then
        ⟨analysis.altTag, analysis.seoFilename, o.uploadUrl, 8⟩
      else
        ⟨analysis.altTag, analysis.seoFilename, img.processed,
          if img.wasEnhanced then 6 else 4⟩) 0 enhancedImages

/-! ### Orchestrator (`analyzeImageSimple`, 04_image_processing.js:1180) -/

structure Product where
  productName : String
  originalImages : String
  supplierImages : String
  additionalImages : String
  article : String

/-- Which capabilities are configured (`getApiSettings` key presence):
`webpConfigured` stands for `tinypngKey && imgbbKey`. -/
structure ApiConfig where
  assistantConfigured : Bool
  replicateConfigured : Bool
  webpConfigured : Bool

/-- The source function `analyzeImageSimple(product)` (04_image_processing.js:1180): locate,
cap at 10, describe, enhance, finish.  The only uncaught throw inside the
`try` is the explicit `'Нет изображений для обработки'` when no images
were located (every stage catches its own errors and
`showFinalProcessingResults` swallows exceptions), so the catch-all
fallback record — with an *empty* `processedImageUrl` — is produced
exactly when the located list is empty. -/
def analyzeImageSimple (cfg : ApiConfig) (descOracle : GroupOracle)
    (replOracles : Nat → ReplicateImageOracle) (finOracles : Nat → FinisherOracle)
    (p : Product) (ts : Nat) : List PipelineResult :=
  let allImageUrls := combineAllImages p.originalImages p.supplierImages p.additionalImages
  if allImageUrls = [] then
    [⟨p.productName ++ " - изображение товара",
      "product-" ++ (⟨natDecimal ts⟩ : String), "", 1⟩]
  else
    let imgs := allImageUrls.take 10
    let analysisResults := processOpenAIOriginals cfg.assistantConfigured descOracle
      imgs p.productName ts
    let enhancedImages := processReplicateWithFallback cfg.replicateConfigured
      replOracles imgs
    processUnifiedWebPOptimization cfg.webpConfigured finOracles
      enhancedImages analysisResults

/-! ### Concrete inputs used by counterexamples and witnesses -/

/-- 81 characters: 79 `a`s, a hyphen, one more `a`.  The cleaned name
needs no edge-stripping, but exceeds `FILENAME_MAX_LENGTH = 80`, and
`substring(0, 80)` cuts right after the hyphen. -/
def c7input : String := ⟨List.replicate 79 'a' ++ ['-', 'a']⟩

/-- A finisher oracle for runs where the WebP stage plays no role. -/
def noFinisher : Nat → FinisherOracle := fun _ => ⟨false, "", false⟩

/-- A sub-batch oracle whose every attempt throws (HTTP 500). -/
def failingGroups : GroupOracle := fun _ => .error "OpenAI message failed: 500"

/-- A sub-batch oracle whose first group replies with a one-entry
`results` array and whose later groups throw. -/
def shortReplyGroups : GroupOracle := fun g =>
  if g = 0 then .ok (some [⟨"Краткий тег", "short-name"⟩]) else .error "x"

/-- A prediction whose status never leaves `processing`. -/
def stuckPolls : Nat → PollReply := fun _ => .ok "processing" ""

/-- A Replicate oracle whose submission is rejected with HTTP 500. -/
def rejectedSubmit : ReplicateImageOracle := ⟨500, stuckPolls⟩

/-- A Replicate oracle that accepts the submission but never finishes. -/
def stuckSubmit : ReplicateImageOracle := ⟨201, stuckPolls⟩

/-- A product with no image source at all — `combineAllImages` returns
`[]` and the orchestrator takes its catastrophic-fallback path. -/
def emptyProduct : Product := ⟨"Товар", "", "", "", "A-1"⟩

/-- A product with a single user-selected image URL. -/
def httpProduct : Product := ⟨"Товар", "", "", "http://a", "A-1"⟩

def allOffConfig : ApiConfig := ⟨false, false, false⟩

/-- A sub-batch reply is length-compatible when it either failed (any
fallback path fires, producing one record per batch image) or parsed to a
`results` array with exactly the sub-batch's number of entries. -/
def replyLenOk (o : Except String (Option (List RawDesc))) (n : Nat) : Prop :=
  match o with
  | .ok (some rs) => rs.length = n
  | _ => True

/-! ## Theorems -/

/-! ### C10 — transliteration is idempotent -/

theorem translitL_append (a b : List Char) :
    translitL (a ++ b) = translitL a ++ translitL b := by
  simp [translitL]

theorem translitRules_entries_fixed :
    ∀ p ∈ translitRules, translitL p.2.data = p.2.data := by decide

theorem translitCharL_fixed (c : Char) :
    translitL (translitCharL c) = translitCharL c := by
  cases h : lookupRule c with
  | none => simp [translitCharL, h, translitL]
  | some s =>
    by_cases hs : s = ""
    · simp [translitCharL, h, hs, translitL]
    · have hmem : ∃ p ∈ translitRules, p.2 = s := by
        have := h
        unfold lookupRule at this
        cases hf : translitRules.find? (fun p => p.1 == c) with
        | none => rw [hf] at this; simp at this
        | some pr =>
          rw [hf] at this
          simp at this
          exact ⟨pr, List.mem_of_find?_eq_some hf, this⟩
      obtain ⟨pr, hpr, hpr2⟩ := hmem
      have := translitRules_entries_fixed pr hpr
      rw [hpr2] at this
      simp [translitCharL, h, hs, this]

theorem translitL_idempotent (l : List Char) :
    translitL (translitL l) = translitL l := by
  induction l with
  | nil => rfl
  | cons c t ih =>
    have : translitL (c :: t) = translitCharL c ++ translitL t := by
      simp [translitL]
    rw [this, translitL_append, translitCharL_fixed, ih]

/-- C10: the transliteration function is idempotent — for every input
string `s`, `transliterate (transliterate s) = transliterate s`, because
every character the rule table emits is a Latin character that is not
itself a key of the table (and the falsy-`''` entries leave their
character unchanged). -/
theorem C10_transliterate_idempotent (s : String) :
    transliterate (transliterate s) = transliterate s := by
  unfold transliterate
  exact congrArg String.mk (translitL_idempotent s.data)

/-! ### C8 — alt-tag validator: the stop-word strip never fires on
normally spaced Russian text.

The regex `/\b(изображение|фото|картинка)\b/gi` uses `\b` in non-unicode
mode, where word characters are `[A-Za-z0-9_]` only; a Cyrillic stop word
preceded and followed by spaces (or string edges) has non-word characters
on both sides of each `\b`, so the boundary assertion fails and the word
is never removed — contradicting the comment above the code
(`// Убираем слова "изображение", "фото", "картинка"`) and the spec. -/

/-- C8: evaluating `validateAltTag` at the spec's own example — whitespace
is collapsed and the result fits 125 characters, but the stop word `Фото`
survives, so the claimed stop-word stripping does not happen. -/
theorem C8_stop_word_not_stripped :
    validateAltTag "  Фото товара   классное  " "Товар" = "Фото товара классное" := by
  decide

/-! ### C7 — SEO filename validator -/

/-- C7 counterexample: on an 81-character input the validator returns a
string of length 80 — above the claimed cap of 60 — whose last character
is a hyphen, refuting both the "length at most 60" and the "no trailing
hyphen" parts of the claim. -/
theorem C7_counterexample :
    60 < (validateSeoFilename c7input 0).data.length ∧
    (validateSeoFilename c7input 0).data.getLast? = some '-' := by
  decide

theorem natDecimalAux_digits (f : Nat) :
    ∀ n, ∀ c ∈ natDecimalAux f n, 48 ≤ c.toNat ∧ c.toNat ≤ 57 := by
  have key : ∀ d, d < 10 → 48 ≤ (Char.ofNat (48 + d)).toNat ∧
      (Char.ofNat (48 + d)).toNat ≤ 57 := by decide
  induction f with
  | zero => intro n c hc; simp [natDecimalAux] at hc
  | succ f ih =>
    intro n c hc
    simp only [natDecimalAux] at hc
    split at hc
    · simp at hc
      subst hc
      exact key n (by omega)
    · rw [List.mem_append] at hc
      rcases hc with hc | hc
      · exact ih _ c hc
      · simp at hc
        subst hc
        exact key (n % 10) (Nat.mod_lt _ (by omega))

theorem natDecimal_digits (n : Nat) :
    ∀ c ∈ natDecimal n, 48 ≤ c.toNat ∧ c.toNat ≤ 57 :=
  natDecimalAux_digits (n + 1) n

theorem natDecimal_ne_nil (n : Nat) : natDecimal n ≠ [] := by
  unfold natDecimal natDecimalAux
  split
  · simp
  · simp

theorem dropWhile_head?_not {α : Type} (p : α → Bool) :
    ∀ (l : List α) (c : α), (l.dropWhile p).head? = some c → p c = false := by
  intro l
  induction l with
  | nil => simp
  | cons a t ih =>
    intro c h
    by_cases hp : p a
    · rw [List.dropWhile_cons_of_pos hp] at h
      exact ih c h
    · rw [List.dropWhile_cons_of_neg hp] at h
      simp at h
      subst h
      simpa using hp

theorem mem_collapseRunsAux (p : Char → Bool) (rep : Char) :
    ∀ (l : List Char) (prev : Bool) (c : Char),
      c ∈ collapseRunsAux p rep prev l → c = rep ∨ c ∈ l := by
  intro l
  induction l with
  | nil => simp [collapseRunsAux]
  | cons a t ih =>
    intro prev c hc
    simp only [collapseRunsAux] at hc
    by_cases hp : p a
    · simp only [hp, if_true] at hc
      by_cases hprev : prev
      · simp only [hprev, if_true] at hc
        rcases ih true c hc with h | h
        · exact Or.inl h
        · exact Or.inr (List.mem_cons_of_mem _ h)
      · simp only [hprev, if_false] at hc
        rcases List.mem_cons.mp hc with h | h
        · exact Or.inl h
        · rcases ih true c h with h' | h'
          · exact Or.inl h'
          · exact Or.inr (List.mem_cons_of_mem _ h')
    · simp only [hp, if_false] at hc
      rcases List.mem_cons.mp hc with h | h
      · subst h; exact Or.inr (List.mem_cons_self _ _)
      · rcases ih false c h with h' | h'
        · exact Or.inl h'
        · exact Or.inr (List.mem_cons_of_mem _ h')

theorem getLast?_append_right {α : Type} (a b : List α) (hb : b ≠ []) :
    (a ++ b).getLast? = b.getLast? := by
  rw [← List.head?_reverse, ← List.head?_reverse, List.reverse_append]
  obtain ⟨c, t, hct⟩ := List.exists_cons_of_ne_nil (fun h => hb (by
    simpa using congrArg List.reverse h) : b.reverse ≠ [])
  rw [hct]
  rfl

theorem head?_take_pos {α : Type} (l : List α) (n : Nat) (hn : 0 < n) :
    (l.take n).head? = l.head? := by
  cases n with
  | zero => omega
  | succ m => cases l <;> simp

/-- The edge-stripped name
`l.dropWhile p |>.reverse.dropWhile p |>.reverse`: its head and last
characters (when present) fail `p`, and all its members come from `l`. -/
theorem stripEdges_props (p : Char → Bool) (l : List Char) :
    (∀ c, (((l.dropWhile p).reverse.dropWhile p).reverse.head? = some c → p c = false)) ∧
    (∀ c, (((l.dropWhile p).reverse.dropWhile p).reverse.getLast? = some c → p c = false)) ∧
    (∀ c, c ∈ ((l.dropWhile p).reverse.dropWhile p).reverse → c ∈ l) := by
  set m := l.dropWhile p with hm
  set r := m.reverse.dropWhile p with hr
  refine ⟨?_, ?_, ?_⟩
  · intro c hc
    rw [List.head?_reverse] at hc
    have hne : r ≠ [] := by
      intro hnil
      rw [hnil] at hc
      simp at hc
    obtain ⟨t, ht⟩ : r <:+ m.reverse := hr ▸ List.dropWhile_suffix p
    have hml : m.reverse.getLast? = some c := by
      rw [← ht, getLast?_append_right _ _ hne]
      exact hc
    rw [List.getLast?_reverse] at hml
    exact dropWhile_head?_not p l c (hm ▸ hml)
  · intro c hc
    rw [List.getLast?_reverse] at hc
    exact dropWhile_head?_not p m.reverse c (hr ▸ hc)
  · intro c hc
    rw [List.mem_reverse] at hc
    have h1 : c ∈ m.reverse := (List.dropWhile_suffix p).subset (hr ▸ hc)
    rw [List.mem_reverse] at h1
    exact (List.dropWhile_suffix p).subset (hm ▸ h1)

theorem data_append (a b : String) : (a ++ b).data = a.data ++ b.data := by
  cases a; cases b; rfl

theorem mk_data (s : String) : (⟨s.data⟩ : String) = s := by
  cases s; rfl

theorem data_mk (l : List Char) : (⟨l⟩ : String).data = l := rfl

theorem mem_of_head?_eq_some {α : Type} {l : List α} {a : α}
    (h : l.head? = some a) : a ∈ l := by
  cases l with
  | nil => simp at h
  | cons b t => simp at h; simp [h]

theorem mem_of_getLast?_eq_some {α : Type} {l : List α} {a : α}
    (h : l.getLast? = some a) : a ∈ l := by
  rw [← List.head?_reverse] at h
  exact List.mem_reverse.mp (mem_of_head?_eq_some h)

theorem digit_seoAllowed {c : Char} (h : 48 ≤ c.toNat ∧ c.toNat ≤ 57) :
    seoAllowedChar c = true := by
  simp only [seoAllowedChar, Bool.or_eq_true, Bool.and_eq_true, decide_eq_true_eq]
  exact Or.inl (Or.inr ⟨h.1, h.2⟩)

theorem digit_ne_hyphen {c : Char} (h : 48 ≤ c.toNat ∧ c.toNat ≤ 57) :
    c ≠ '-' := by
  intro he
  subst he
  simp at h

theorem mem_collapseRuns (p : Char → Bool) (rep : Char) (l : List Char)
    (c : Char) (h : c ∈ collapseRuns p rep l) : c = rep ∨ c ∈ l :=
  mem_collapseRunsAux p rep l false c h

/-- The `product-image-<timestamp>` fallback: non-empty, inside the
`[a-z0-9-]` charset, no hyphen at either edge, and within the length cap
whenever the rendered timestamp has at most 66 digits. -/
theorem fallbackName_props (ts : Nat) (hts : (natDecimal ts).length ≤ 66) :
    (fallbackName ts).data ≠ [] ∧
    (fallbackName ts).data.length ≤ 80 ∧
    (∀ c ∈ (fallbackName ts).data, seoAllowedChar c = true) ∧
    (fallbackName ts).data.head? ≠ some '-' ∧
    (fallbackName ts).data.getLast? ≠ some '-' := by
  have hplchars : ∀ c ∈ "product-image-".data, seoAllowedChar c = true := by decide
  have hplen : ("product-image-".data).length = 14 := by decide
  simp only [fallbackName, data_mk]
  refine ⟨by simp, ?_, ?_, ?_, ?_⟩
  · rw [List.length_append, hplen]
    omega
  · intro c hc
    rcases List.mem_append.mp hc with h | h
    · exact hplchars c h
    · exact digit_seoAllowed (natDecimal_digits ts c h)
  · intro h
    have hh : ("product-image-".data ++ natDecimal ts).head? = some 'p' := rfl
    rw [hh] at h
    simp at h
  · intro h
    rw [getLast?_append_right _ _ (natDecimal_ne_nil ts)] at h
    exact digit_ne_hyphen (natDecimal_digits ts '-' (mem_of_getLast?_eq_some h)) rfl

/-- The post-extension cleanup: non-empty, `[a-z0-9-]` only, length ≤ 80,
never a leading hyphen, and never a trailing hyphen unless truncation at
exactly 80 characters produced it. -/
theorem cleanSeoName_props (name : String) (ts : Nat)
    (hts : (natDecimal ts).length ≤ 66) :
    (cleanSeoName name ts).data ≠ [] ∧
    (cleanSeoName name ts).data.length ≤ 80 ∧
    (∀ c ∈ (cleanSeoName name ts).data, seoAllowedChar c = true) ∧
    (cleanSeoName name ts).data.head? ≠ some '-' ∧
    ((cleanSeoName name ts).data.length < 80 →
      (cleanSeoName name ts).data.getLast? ≠ some '-') := by
  have hfb := fallbackName_props ts hts
  simp only [cleanSeoName]
  set l2 := (name.data.map jsLowerChar).map
    (fun c => if seoAllowedChar c then c else '-') with hl2
  set l3 := collapseRuns (fun c => c == '-') '-' l2 with hl3
  set l4 := ((l3.dropWhile (fun c => c == '-')).reverse.dropWhile
    (fun c => c == '-')).reverse with hl4
  have hedge := stripEdges_props (fun c => c == '-') l3
  have hl2ok : ∀ c ∈ l2, seoAllowedChar c = true := by
    intro c hc
    rw [hl2] at hc
    rcases List.mem_map.mp hc with ⟨a, _, ha⟩
    by_cases h : seoAllowedChar a
    · rw [if_pos h] at ha; rw [← ha]; exact h
    · rw [if_neg h] at ha; rw [← ha]; rfl
  have hl4ok : ∀ c ∈ l4, seoAllowedChar c = true := by
    intro c hc
    have hc3 : c ∈ l3 := hedge.2.2 c (hl4 ▸ hc)
    rcases mem_collapseRuns (fun c => c == '-') '-' l2 c (hl3 ▸ hc3) with h | h
    · rw [h]; rfl
    · exact hl2ok c h
  set l5 := if 80 < l4.length then l4.take 80 else l4 with hl5
  have hl5head : l5.head? ≠ some '-' := by
    intro hco
    have h4 : l4.head? = some '-' := by
      rw [hl5] at hco
      split at hco
      · rwa [head?_take_pos _ 80 (by omega)] at hco
      · exact hco
    have := hedge.1 '-' (hl4 ▸ h4)
    simp at this
  have hl5sub : ∀ c ∈ l5, c ∈ l4 := by
    intro c hc
    rw [hl5] at hc
    split at hc
    · exact List.take_subset 80 l4 hc
    · exact hc
  split
  · exact ⟨hfb.1, hfb.2.1, hfb.2.2.1, hfb.2.2.2.1, fun _ => hfb.2.2.2.2⟩
  · rename_i hne
    simp only [data_mk]
    refine ⟨hne, ?_, ?_, ?_, ?_⟩
    · rw [hl5]
      split
      · rw [List.length_take]; omega
      · omega
    · intro c hc
      exact hl4ok c (hl5sub c hc)
    · exact hl5head
    · intro hlen hco
      rw [hl5] at hlen hco
      by_cases h80 : 80 < l4.length
      · rw [if_pos h80, List.length_take] at hlen; omega
      · rw [if_neg h80] at hco
        have := hedge.2.1 '-' (hl4 ▸ hco)
        simp at this

theorem splitP_cons (p : Char → Bool) (c : Char) (t : List Char) :
    splitP p (c :: t) = match splitP p t with
      | [] => [[]]
      | h :: r => if p c then [] :: h :: r else (c :: h) :: r := rfl

theorem splitP_ne_nil (p : Char → Bool) : ∀ l, splitP p l ≠ [] := by
  intro l
  cases l with
  | nil => simp [splitP]
  | cons c t =>
    cases hsp : splitP p t with
    | nil => simp [splitP, hsp]
    | cons h r =>
      simp only [splitP, hsp]
      split <;> simp

theorem splitP_no_sep (p : Char → Bool) :
    ∀ l, (∀ c ∈ l, p c = false) → splitP p l = [l] := by
  intro l
  induction l with
  | nil => intro _; rfl
  | cons c t ih =>
    intro h
    have hc : p c = false := h c (List.mem_cons_self _ _)
    have ht := ih (fun x hx => h x (List.mem_cons_of_mem _ hx))
    simp only [splitP, ht, hc]
    simp

theorem splitP_append_sep (p : Char → Bool) (s : Char) (hs : p s = true)
    (ext : List Char) (hext : ∀ c ∈ ext, p c = false) :
    ∀ a, splitP p (a ++ s :: ext) = splitP p a ++ [ext] := by
  intro a
  induction a with
  | nil =>
    simp only [List.nil_append, splitP, splitP_no_sep p ext hext, hs]
    simp
  | cons c a' ih =>
    cases heq : splitP p a' with
    | nil => exact absurd heq (splitP_ne_nil p a')
    | cons h r =>
      rw [List.cons_append, splitP_cons p c (a' ++ s :: ext), ih, heq,
        splitP_cons p c a', heq]
      cases hp : p c <;> simp [hp]

theorem joinDot_splitDot : ∀ l : List Char,
    (((splitP (· == '.') l).intersperse ['.']).flatten) = l := by
  intro l
  induction l with
  | nil => rfl
  | cons c t ih =>
    cases heq : splitP (· == '.') t with
    | nil => exact absurd heq (splitP_ne_nil _ t)
    | cons h r =>
      rw [heq] at ih
      simp only [splitP, heq]
      by_cases hc : c = '.'
      · subst hc
        simp only [beq_self_eq_true, if_true]
        cases r with
        | nil => simpa using ih
        | cons r0 rs => simpa using ih
      · have hcb : (c == '.') = false := by simp [hc]
        simp only [hcb, Bool.false_eq_true, if_false]
        cases r with
        | nil => simpa using ih
        | cons r0 rs =>
          simp only [List.intersperse] at ih ⊢
          simp only [List.flatten_cons, List.cons_append] at ih ⊢
          rw [← ih]

/-- Lemma: `stripExtension` really strips a final dot-free extension. -/
theorem stripExtension_strips (base ext : String) (hext : '.' ∉ ext.data) :
    stripExtension (base ++ "." ++ ext) = base := by
  have hdata : (base ++ "." ++ ext).data = base.data ++ '.' :: ext.data := by
    rw [data_append, data_append, List.append_assoc]
    rfl
  have hextb : ∀ c ∈ ext.data, (c == '.') = false := by
    intro c hc
    simp only [beq_eq_false_iff_ne, ne_eq]
    intro h
    exact hext (h ▸ hc)
  have hsplit : splitP (· == '.') (base ++ "." ++ ext).data =
      splitP (· == '.') base.data ++ [ext.data] := by
    rw [hdata]
    exact splitP_append_sep (· == '.') '.' (by simp) ext.data hextb base.data
  have hne := splitP_ne_nil (· == '.') base.data
  simp only [stripExtension, hsplit]
  rw [if_pos (by
    rw [List.length_append]
    have : 0 < (splitP (· == '.') base.data).length := List.length_pos.mpr hne
    simpa using this)]
  rw [List.dropLast_concat, joinDot_splitDot]

/-- C7 amended: `validateSeoFilename` returns a non-empty string over
`[a-z0-9-]` with the extension stripped and no leading hyphen, but its
length cap is `FILENAME_MAX_LENGTH = 80` (not 60), and the absence of a
trailing hyphen is only guaranteed when the name was not truncated (a cut
at exactly 80 characters can end in a hyphen); the timestamp hypothesis
keeps the fallback placeholder itself within the cap. -/
theorem C7_amended (s : String) (ts : Nat) (base ext : String)
    (hts : (natDecimal ts).length ≤ 66) (hext : '.' ∉ ext.data) :
    (validateSeoFilename s ts).data ≠ [] ∧
    (validateSeoFilename s ts).data.length ≤ 80 ∧
    (∀ c ∈ (validateSeoFilename s ts).data, seoAllowedChar c = true) ∧
    (validateSeoFilename s ts).data.head? ≠ some '-' ∧
    ((validateSeoFilename s ts).data.length < 80 →
      (validateSeoFilename s ts).data.getLast? ≠ some '-') ∧
    validateSeoFilename (base ++ "." ++ ext) ts = cleanSeoName base ts := by
  have hmain : (validateSeoFilename s ts).data ≠ [] ∧
      (validateSeoFilename s ts).data.length ≤ 80 ∧
      (∀ c ∈ (validateSeoFilename s ts).data, seoAllowedChar c = true) ∧
      (validateSeoFilename s ts).data.head? ≠ some '-' ∧
      ((validateSeoFilename s ts).data.length < 80 →
        (validateSeoFilename s ts).data.getLast? ≠ some '-') := by
    unfold validateSeoFilename
    split
    · have hfb := fallbackName_props ts hts
      exact ⟨hfb.1, hfb.2.1, hfb.2.2.1, hfb.2.2.2.1, fun _ => hfb.2.2.2.2⟩
    · exact cleanSeoName_props _ ts hts
  refine ⟨hmain.1, hmain.2.1, hmain.2.2.1, hmain.2.2.2.1, hmain.2.2.2.2, ?_⟩
  unfold validateSeoFilename
  rw [if_neg (by
    intro h
    have := congrArg String.data h
    rw [data_append, data_append] at this
    simp at this)]
  rw [stripExtension_strips base ext hext]

/-- C7 witness: the amended theorem evaluated at the spec's own example
`"Товар #1.jpg"` with a realistic 13-digit timestamp. -/
theorem C7_witness :
    (natDecimal 1700000000000).length ≤ 66 ∧ '.' ∉ "jpg".data ∧
    ((validateSeoFilename "Товар #1.jpg" 1700000000000).data ≠ [] ∧
      (validateSeoFilename "Товар #1.jpg" 1700000000000).data.length ≤ 80 ∧
      (∀ c ∈ (validateSeoFilename "Товар #1.jpg" 1700000000000).data,
        seoAllowedChar c = true) ∧
      (validateSeoFilename "Товар #1.jpg" 1700000000000).data.head? ≠ some '-' ∧
      ((validateSeoFilename "Товар #1.jpg" 1700000000000).data.length < 80 →
        (validateSeoFilename "Товар #1.jpg" 1700000000000).data.getLast? ≠ some '-') ∧
      validateSeoFilename ("Товар #1" ++ "." ++ "jpg") 1700000000000 =
        cleanSeoName "Товар #1" 1700000000000) :=
  ⟨by decide, by decide,
    C7_amended "Товар #1.jpg" 1700000000000 "Товар #1" "jpg" (by decide) (by decide)⟩

/-! ### C3 — asset locator: priority tiers, dedup, batch cap -/

theorem parseTier_empty : parseTier "" = [] := by decide

theorem dedupGo_mem : ∀ (l acc : List String) (x : String),
    x ∈ dedupGo acc l ↔ x ∈ acc ∨ x ∈ l := by
  intro l
  induction l with
  | nil => intro acc x; simp [dedupGo]
  | cons u t ih =>
    intro acc x
    simp only [dedupGo]
    by_cases hu : u ∈ acc
    · rw [if_pos hu, ih]
      constructor
      · rintro (h | h)
        · exact Or.inl h
        · exact Or.inr (List.mem_cons_of_mem _ h)
      · rintro (h | h)
        · exact Or.inl h
        · rcases List.mem_cons.mp h with he | ht
          · exact Or.inl (he ▸ hu)
          · exact Or.inr ht
    · rw [if_neg hu, ih]
      simp [List.mem_append, List.mem_cons, or_assoc]

theorem dedupGo_nodup : ∀ (l acc : List String), acc.Nodup → (dedupGo acc l).Nodup := by
  intro l
  induction l with
  | nil => intro acc h; exact h
  | cons u t ih =>
    intro acc hacc
    simp only [dedupGo]
    by_cases hu : u ∈ acc
    · rw [if_pos hu]; exact ih acc hacc
    · rw [if_neg hu]
      refine ih (acc ++ [u]) ?_
      rw [List.nodup_append]
      refine ⟨hacc, List.nodup_singleton u, ?_⟩
      intro a ha hau
      rw [List.mem_singleton] at hau
      exact hu (hau ▸ ha)

theorem dedupGo_acc_sublist : ∀ (l acc : List String),
    ∃ r, dedupGo acc l = acc ++ r ∧ r.Sublist l := by
  intro l
  induction l with
  | nil => intro acc; exact ⟨[], by simp [dedupGo]⟩
  | cons u t ih =>
    intro acc
    simp only [dedupGo]
    by_cases hu : u ∈ acc
    · rw [if_pos hu]
      obtain ⟨r, heq, hsub⟩ := ih acc
      exact ⟨r, heq, hsub.cons u⟩
    · rw [if_neg hu]
      obtain ⟨r, heq, hsub⟩ := ih (acc ++ [u])
      refine ⟨u :: r, ?_, hsub.cons₂ u⟩
      rw [heq, List.append_assoc]
      rfl

theorem dedupFirstSeen_mem (l : List String) (x : String) :
    x ∈ dedupFirstSeen l ↔ x ∈ l := by
  unfold dedupFirstSeen
  rw [dedupGo_mem]
  simp

theorem dedupFirstSeen_nodup (l : List String) : (dedupFirstSeen l).Nodup :=
  dedupGo_nodup l [] List.nodup_nil

theorem dedupFirstSeen_sublist (l : List String) : (dedupFirstSeen l).Sublist l := by
  obtain ⟨r, heq, hsub⟩ := dedupGo_acc_sublist l []
  unfold dedupFirstSeen
  rw [heq]
  simpa using hsub

theorem combine_eq_spec (o s a : String) :
    combineAllImages o s a = dedupFirstSeen (specHighestTier a s o) := by
  unfold combineAllImages specHighestTier
  have g : ∀ t : String, (if t ≠ "" then parseTier t else []) = parseTier t := by
    intro t
    split
    · rfl
    · rename_i h
      push_neg at h
      rw [h, parseTier_empty]
  by_cases hpa : parseTier a = []
  · by_cases hps : parseTier s = []
    · by_cases hpo : parseTier o = []
      · simp [g, hpa, hps, hpo]
      · simp [g, hpa, hps, hpo]
    · simp [g, hpa, hps]
  · simp [g, hpa]

/-- C3: the locator returns exactly the highest-priority tier that yields
at least one valid http URL — never mixing tiers — deduplicated keeping
the first occurrence, in order; and the orchestrator processes at most 10
of those candidates, a prefix of the located list (original order). -/
theorem C3_locator (o s a : String) :
    combineAllImages o s a = dedupFirstSeen (specHighestTier a s o) ∧
    (∀ u, u ∈ combineAllImages o s a ↔ u ∈ specHighestTier a s o) ∧
    (combineAllImages o s a).Nodup ∧
    (combineAllImages o s a).Sublist (specHighestTier a s o) ∧
    imagesToProcess o s a = (combineAllImages o s a).take 10 ∧
    (imagesToProcess o s a).length ≤ 10 ∧
    List.IsPrefix (imagesToProcess o s a) (combineAllImages o s a) := by
  have he := combine_eq_spec o s a
  refine ⟨he, ?_, ?_, ?_, rfl, ?_, ?_⟩
  · intro u
    rw [he, dedupFirstSeen_mem]
  · rw [he]
    exact dedupFirstSeen_nodup _
  · rw [he]
    exact dedupFirstSeen_sublist _
  · unfold imagesToProcess
    rw [List.length_take]
    omega
  · exact List.take_prefix 10 _

/-- C3 witness: the locator and cap evaluated on overlapping tiers with a
duplicate in the winning (user-selected) tier. -/
theorem C3_witness :
    combineAllImages "http://o" "" "http://a,http://b,http://a" =
      dedupFirstSeen (specHighestTier "http://a,http://b,http://a" "" "http://o") ∧
    ("http://b" ∈ combineAllImages "http://o" "" "http://a,http://b,http://a" ↔
      "http://b" ∈ specHighestTier "http://a,http://b,http://a" "" "http://o") :=
  ⟨(C3_locator "http://o" "" "http://a,http://b,http://a").1,
   (C3_locator "http://o" "" "http://a,http://b,http://a").2.1 "http://b"⟩

/-! ### C9 — both polling loops are bounded and time out -/

theorem waitReplicateAux_polls_le (replies : Nat → PollReply) (maxAttempts : Nat) :
    ∀ fuel attempts, (waitReplicateAux replies maxAttempts attempts fuel).2 ≤ attempts + fuel := by
  intro fuel
  induction fuel with
  | zero => intro attempts; simp [waitReplicateAux]
  | succ f ih =>
    intro attempts
    simp only [waitReplicateAux]
    split
    · split
      · dsimp only
        omega
      · split
        · dsimp only
          omega
        · split
          · dsimp only
            omega
          · exact Nat.le_trans (ih (attempts + 1)) (by omega)
    · dsimp only
      omega

theorem waitReplicateAux_timeout (replies : Nat → PollReply) (maxAttempts : Nat)
    (h : ∀ i, nonTerminalReply (replies i)) :
    ∀ fuel attempts,
      (waitReplicateAux replies maxAttempts attempts fuel).1 = .failure "timeout" := by
  intro fuel
  induction fuel with
  | zero => intro attempts; rfl
  | succ f ih =>
    intro attempts
    simp only [waitReplicateAux]
    split
    · split
      · rename_i m hm
        have hnt := h attempts
        rw [hm] at hnt
        simp [nonTerminalReply] at hnt
      · rename_i st out hm
        have hnt := h attempts
        rw [hm] at hnt
        rw [if_neg hnt.1, if_neg hnt.2]
        exact ih (attempts + 1)
    · rfl

theorem assistantPollAux_polls_le (polls : Nat → String) :
    ∀ fuel status attempts, attempts ≤ 29 →
      (assistantPollAux polls status attempts fuel).2 ≤ 30 := by
  intro fuel
  induction fuel with
  | zero => intro status attempts h; simp [assistantPollAux]; omega
  | succ f ih =>
    intro status attempts h
    simp only [assistantPollAux]
    split
    · split
      · dsimp only
        omega
      · exact ih (polls attempts) (attempts + 1) (by omega)
    · dsimp only
      omega

theorem assistantPollAux_timeout (polls : Nat → String)
    (h : ∀ i, runningStatus (polls i)) :
    ∀ fuel status attempts, runningStatus status →
      (assistantPollAux polls status attempts fuel).1 =
        .error "Таймаут ожидания ответа от Assistant" := by
  intro fuel
  induction fuel with
  | zero => intro status attempts _; rfl
  | succ f ih =>
    intro status attempts hrun
    have hrun' : status = "queued" ∨ status = "in_progress" := hrun
    simp only [assistantPollAux]
    rw [if_pos hrun']
    split
    · rfl
    · exact ih (polls attempts) (attempts + 1) (h attempts)

/-- C9: both polling loops terminate within their fixed attempt ceilings
(`maxWaitSeconds` one-second polls for the Replicate wait, 30 for the
assistant run), and a status stream that never reaches a terminal state
produces the timeout result/error rather than an infinite wait. -/
theorem C9_polling (replies : Nat → PollReply) (maxWait : Nat)
    (polls : Nat → String) (status0 : String) :
    (waitForReplicateResult replies maxWait).2 ≤ maxWait ∧
    ((∀ i, nonTerminalReply (replies i)) →
      (waitForReplicateResult replies maxWait).1 = .failure "timeout") ∧
    (runAssistantPoll polls status0).2 ≤ 30 ∧
    ((runningStatus status0 ∧ ∀ i, runningStatus (polls i)) →
      (runAssistantPoll polls status0).1 =
        .error "Таймаут ожидания ответа от Assistant") := by
  refine ⟨?_, ?_, ?_, ?_⟩
  · have := waitReplicateAux_polls_le replies maxWait maxWait 0
    unfold waitForReplicateResult
    omega
  · intro h
    exact waitReplicateAux_timeout replies maxWait h maxWait 0
  · exact assistantPollAux_polls_le polls 30 status0 0 (by omega)
  · intro ⟨h0, h⟩
    exact assistantPollAux_timeout polls h 30 status0 0 h0

/-- C9 witness: a prediction stuck in `processing` and a run stuck in
`queued` both exhaust their ceilings and report timeouts. -/
theorem C9_witness :
    (waitForReplicateResult stuckPolls 120).2 ≤ 120 ∧
    (waitForReplicateResult stuckPolls 120).1 = .failure "timeout" ∧
    (runAssistantPoll (fun _ => "queued") "queued").2 ≤ 30 ∧
    (runAssistantPoll (fun _ => "queued") "queued").1 =
      .error "Таймаут ожидания ответа от Assistant" := by
  have h := C9_polling stuckPolls 120 (fun _ => "queued") "queued"
  exact ⟨h.1,
    h.2.1 (fun i => ⟨by decide, by decide⟩),
    h.2.2.1,
    h.2.2.2 ⟨Or.inl rfl, fun i => Or.inl rfl⟩⟩

/-! ### C6 — resolution enhancer: pass-through on failure, per-image
isolation, one outcome per image -/

theorem idxMap_map {α β γ : Type} (g : β → γ) (f : Nat → α → β) :
    ∀ (l : List α) (i : Nat), (idxMap f i l).map g = idxMap (fun n a => g (f n a)) i l := by
  intro l
  induction l with
  | nil => intro i; rfl
  | cons a t ih => intro i; simp [idxMap, ih]

theorem idxMap_const {α β : Type} (k : α → β) (f : Nat → α → β)
    (h : ∀ n a, f n a = k a) :
    ∀ (l : List α) (i : Nat), idxMap f i l = l.map k := by
  intro l
  induction l with
  | nil => intro i; rfl
  | cons a t ih => intro i; simp [idxMap, ih, h]

theorem idxMap_getElem? {α β : Type} (f : Nat → α → β) :
    ∀ (l : List α) (i j : Nat), (idxMap f i l)[j]? = (l[j]?).map (f (i + j)) := by
  intro l
  induction l with
  | nil => intro i j; simp [idxMap]
  | cons a t ih =>
    intro i j
    cases j with
    | zero => simp [idxMap]
    | succ m =>
      simp only [idxMap, List.getElem?_cons_succ]
      rw [ih (i + 1) m]
      have : i + 1 + m = i + (m + 1) := by omega
      rw [this]

theorem idxMap_length {α β : Type} (f : Nat → α → β) :
    ∀ (l : List α) (i : Nat), (idxMap f i l).length = l.length := by
  intro l
  induction l with
  | nil => intro i; rfl
  | cons a t ih => intro i; simp [idxMap, ih]

theorem processReplicate_false (oracles : Nat → ReplicateImageOracle)
    (urls : List String) :
    processReplicateWithFallback false oracles urls =
      urls.map (fun u => ⟨u, u, false, none⟩) := by
  unfold processReplicateWithFallback
  rw [if_pos]
  simp

theorem processReplicate_true (oracles : Nat → ReplicateImageOracle)
    (urls : List String) :
    processReplicateWithFallback true oracles urls =
      idxMap (fun i url => processImage (oracles i) url) 0 urls := by
  unfold processReplicateWithFallback
  rw [if_neg]
  simp

theorem processImage_original (oi : ReplicateImageOracle) (u : String) :
    (processImage oi u).original = u := by
  unfold processImage
  split
  · rfl
  · split <;> rfl

/-- C6: unconfigured capability → pass-through outcomes for all images;
output always has one outcome per image in input order (slot `i` depends
only on image `i` and its own oracle — isolation); non-201 submission and
polling failure/timeout each yield `processedUrl = originalUrl`,
`wasEnhanced = false` and a recorded error reason. -/
theorem C6_enhancer (oracles : Nat → ReplicateImageOracle) (urls : List String) :
    processReplicateWithFallback false oracles urls =
      urls.map (fun u => ⟨u, u, false, none⟩) ∧
    (∀ c : Bool, (processReplicateWithFallback c oracles urls).map (·.original) = urls) ∧
    (∀ i, (processReplicateWithFallback true oracles urls)[i]? =
      (urls[i]?).map (fun u => processImage (oracles i) u)) ∧
    (∀ (oi : ReplicateImageOracle) (u : String), oi.submitCode ≠ 201 →
      processImage oi u = ⟨u, u, false,
        some ("Replicate failed: " ++ (⟨natDecimal oi.submitCode⟩ : String))⟩) ∧
    (∀ (oi : ReplicateImageOracle) (u reason : String), oi.submitCode = 201 →
      (waitForReplicateResult oi.pollReplies 120).1 = .failure reason →
      processImage oi u = ⟨u, u, false, some "Replicate processing failed"⟩) ∧
    (∀ (oi : ReplicateImageOracle) (u : String),
      (processImage oi u).wasEnhanced = false →
      (processImage oi u).processed = u ∧ (processImage oi u).error.isSome) := by
  refine ⟨processReplicate_false oracles urls, ?_, ?_, ?_, ?_, ?_⟩
  · intro c
    cases c with
    | false =>
      rw [processReplicate_false]
      induction urls with
      | nil => rfl
      | cons u t ih => simp only [List.map_cons, ih]
    | true =>
      rw [processReplicate_true, idxMap_map]
      rw [idxMap_const (fun u => u) _ (fun n a => processImage_original (oracles n) a)]
      simp
  · intro i
    rw [processReplicate_true]
    have := idxMap_getElem? (fun i url => processImage (oracles i) url) urls 0 i
    simpa using this
  · intro oi u h
    unfold processImage
    rw [if_pos h]
  · intro oi u reason h201 hfail
    unfold processImage
    rw [if_neg (by simp [h201])]
    rw [hfail]
  · intro oi u
    unfold processImage
    split
    · intro _; exact ⟨rfl, rfl⟩
    · split
      · intro h; simp at h
      · intro _; exact ⟨rfl, rfl⟩

/-- C6 witness: a rejected submission (HTTP 500) and an accepted-but-stuck
prediction both fall back to the original URL with an error recorded, and
the unconfigured path passes everything through. -/
theorem C6_witness :
    processReplicateWithFallback false (fun _ => rejectedSubmit) ["http://x"] =
      [⟨"http://x", "http://x", false, none⟩] ∧
    processImage rejectedSubmit "http://x" =
      ⟨"http://x", "http://x", false, some "Replicate failed: 500"⟩ ∧
    processImage stuckSubmit "http://y" =
      ⟨"http://y", "http://y", false, some "Replicate processing failed"⟩ := by
  have h := C6_enhancer (fun _ => rejectedSubmit) ["http://x"]
  refine ⟨h.1, ?_, ?_⟩
  · have := h.2.2.2.1 rejectedSubmit "http://x" (by decide)
    simpa using this
  · exact h.2.2.2.2.1 stuckSubmit "http://y" "timeout" rfl (by decide)

/-! ### C5 / C4 — description generator: sub-batch split, isolation,
fallbacks, and output length -/

theorem subBatchesF_length :
    ∀ (fuel : Nat) (l : List String), l.length ≤ fuel →
      (subBatchesF fuel l).length = (l.length + 4) / 5 := by
  intro fuel
  induction fuel with
  | zero =>
    intro l h
    have h0 : l.length = 0 := by omega
    simp [subBatchesF, h0]
  | succ f ih =>
    intro l h
    cases l with
    | nil => rfl
    | cons a t =>
      simp only [List.length_cons] at h
      simp only [subBatchesF, List.length_cons]
      rw [ih ((a :: t).drop 5)
        (by simp only [List.length_drop, List.length_cons]; omega)]
      simp only [List.length_drop, List.length_cons]
      omega

theorem subBatches_length (l : List String) :
    (subBatches l).length = (l.length + 4) / 5 :=
  subBatchesF_length l.length l (Nat.le_refl _)

theorem subBatchesF_lengths_sum :
    ∀ (fuel : Nat) (l : List String), l.length ≤ fuel →
      ((subBatchesF fuel l).map List.length).sum = l.length := by
  intro fuel
  induction fuel with
  | zero =>
    intro l h
    have h0 : l.length = 0 := by omega
    simp [subBatchesF, h0]
  | succ f ih =>
    intro l h
    cases l with
    | nil => rfl
    | cons a t =>
      simp only [List.length_cons] at h
      simp only [subBatchesF, List.map_cons, List.sum_cons]
      rw [ih ((a :: t).drop 5)
        (by simp only [List.length_drop, List.length_cons]; omega)]
      simp only [List.length_take, List.length_drop, List.length_cons]
      omega

theorem subBatches_lengths_sum (l : List String) :
    ((subBatches l).map List.length).sum = l.length :=
  subBatchesF_lengths_sum l.length l (Nat.le_refl _)

theorem length_flatten' {α : Type} :
    ∀ ll : List (List α), ll.flatten.length = (ll.map List.length).sum := by
  intro ll
  induction ll with
  | nil => rfl
  | cons h t ih => simp [ih]

theorem processOpenAI_true (oracle : GroupOracle) (imgs : List String)
    (pn : String) (ts : Nat) :
    processOpenAIOriginals true oracle imgs pn ts =
      (perGroupResults oracle imgs pn ts).flatten := by
  unfold processOpenAIOriginals
  rw [if_neg]
  simp

theorem processOpenAI_false (oracle : GroupOracle) (imgs : List String)
    (pn : String) (ts : Nat) :
    processOpenAIOriginals false oracle imgs pn ts =
      idxMap (fun i _ => basicDesc pn (i + 1)) 0 imgs := by
  unfold processOpenAIOriginals
  rw [if_pos]
  simp

theorem groupResult_length (o : Except String (Option (List RawDesc))) (g : Nat)
    (batch : List String) (pn : String) (ts : Nat)
    (h : replyLenOk o batch.length) :
    (groupResult o g batch pn ts).length = batch.length := by
  unfold groupResult
  match o with
  | .error e => rw [idxMap_length]
  | .ok none =>
    unfold parseAssistantBatchResponse
    rw [idxMap_length, List.length_range]
  | .ok (some rs) =>
    unfold parseAssistantBatchResponse
    rw [idxMap_length]
    exact h

theorem perGroupResults_getElem? (oracle : GroupOracle) (imgs : List String)
    (pn : String) (ts : Nat) (g : Nat) :
    (perGroupResults oracle imgs pn ts)[g]? =
      ((subBatches imgs)[g]?).map
        (fun batch => groupResult (oracle g) g batch pn ts) := by
  unfold perGroupResults
  have := idxMap_getElem?
    (fun g batch => groupResult (oracle g) g batch pn ts) (subBatches imgs) 0 g
  simpa using this

/-- C5: for N images the description stage issues `ceil(N/5)` sub-batch
attempts; a failing attempt (thrown group error or unparseable reply)
synthesizes fallback records for exactly that sub-batch's images; groups
other than a changed one are unaffected (isolation); and the stage always
returns the concatenation of all group results — no failure aborts the
run. -/
theorem C5_subbatching (oracle : GroupOracle) (imgs : List String)
    (pn : String) (ts : Nat) :
    (subBatches imgs).length = (imgs.length + 4) / 5 ∧
    processOpenAIOriginals true oracle imgs pn ts =
      (perGroupResults oracle imgs pn ts).flatten ∧
    (∀ (oracle2 : GroupOracle) (g : Nat), (∀ g2, g2 ≠ g → oracle g2 = oracle2 g2) →
      ∀ g2, g2 ≠ g → (perGroupResults oracle imgs pn ts)[g2]? =
        (perGroupResults oracle2 imgs pn ts)[g2]?) ∧
    (∀ g e batch, oracle g = .error e → (subBatches imgs)[g]? = some batch →
      (perGroupResults oracle imgs pn ts)[g]? =
        some (idxMap (fun idx _ => fallbackDesc pn (5 * g + idx + 1)) 0 batch)) ∧
    (∀ g batch, oracle g = .ok none → (subBatches imgs)[g]? = some batch →
      (perGroupResults oracle imgs pn ts)[g]? =
        some (idxMap (fun i _ => fallbackDesc pn (i + 1)) 0
          (List.range batch.length))) := by
  refine ⟨subBatches_length imgs, processOpenAI_true oracle imgs pn ts, ?_, ?_, ?_⟩
  · intro oracle2 g hagree g2 hne
    rw [perGroupResults_getElem?, perGroupResults_getElem?, hagree g2 hne]
  · intro g e batch hor hbatch
    rw [perGroupResults_getElem?, hbatch, hor]
    rfl
  · intro g batch hor hbatch
    rw [perGroupResults_getElem?, hbatch, hor]
    rfl

/-- C5 witness: six images make two sub-batch attempts; the first group's
HTTP failure synthesizes fallbacks for exactly its five images. -/
theorem C5_witness :
    (subBatches ["http://u1", "http://u2", "http://u3", "http://u4", "http://u5",
      "http://u6"]).length =
      ((["http://u1", "http://u2", "http://u3", "http://u4", "http://u5",
        "http://u6"] : List String).length + 4) / 5 ∧
    (perGroupResults failingGroups
      ["http://u1", "http://u2", "http://u3", "http://u4", "http://u5", "http://u6"]
      "Товар" 0)[0]? =
      some (idxMap (fun idx _ => fallbackDesc "Товар" (5 * 0 + idx + 1)) 0
        ["http://u1", "http://u2", "http://u3", "http://u4", "http://u5"]) := by
  have h := C5_subbatching failingGroups
    ["http://u1", "http://u2", "http://u3", "http://u4", "http://u5", "http://u6"]
    "Товар" 0
  exact ⟨h.1, h.2.2.2.1 0 "OpenAI message failed: 500"
    ["http://u1", "http://u2", "http://u3", "http://u4", "http://u5"] rfl rfl⟩

/-- C4 counterexample: two input images whose single sub-batch reply
parses to a one-entry `results` array yield one outcome, not two — the
parse maps over the reply's entries and never pads to `expectedCount`. -/
theorem C4_counterexample :
    ¬((processOpenAIOriginals true shortReplyGroups ["http://a", "http://b"]
        "Товар" 0).length =
      (["http://a", "http://b"] : List String).length) := by
  decide

theorem idxMap_groupResult_lengths (oracle : GroupOracle) (pn : String) (ts : Nat) :
    ∀ (bs : List (List String)) (i : Nat),
      (∀ g batch, bs[g]? = some batch → replyLenOk (oracle (i + g)) batch.length) →
      ((idxMap (fun g batch => groupResult (oracle g) g batch pn ts) i bs).map
        List.length).sum = (bs.map List.length).sum := by
  intro bs
  induction bs with
  | nil => intro i _; rfl
  | cons b t ih =>
    intro i h
    simp only [idxMap, List.map_cons, List.sum_cons]
    have hb : replyLenOk (oracle i) b.length := by
      have := h 0 b (by simp)
      simpa using this
    rw [groupResult_length (oracle i) i b pn ts hb]
    have ht := ih (i + 1) (fun g batch hg => by
      have := h (g + 1) batch (by simpa using hg)
      have harith : i + (g + 1) = i + 1 + g := by omega
      rwa [harith] at this)
    rw [ht]

/-- C4 amended: the description stage returns one outcome per input image
(same count, groups in order) provided every sub-batch reply either fails
or parses to a `results` array of exactly the sub-batch's size; when the
assistant is unconfigured the per-image fallback likewise yields one
outcome per image.  (Without that proviso the count follows the reply's
array, as the counterexample shows.) -/
theorem C4_amended (oracle : GroupOracle) (imgs : List String) (pn : String)
    (ts : Nat)
    (h : ∀ g batch, (subBatches imgs)[g]? = some batch →
      replyLenOk (oracle g) batch.length) :
    (processOpenAIOriginals true oracle imgs pn ts).length = imgs.length ∧
    (processOpenAIOriginals false oracle imgs pn ts).length = imgs.length := by
  constructor
  · rw [processOpenAI_true, length_flatten']
    unfold perGroupResults
    rw [idxMap_groupResult_lengths oracle pn ts (subBatches imgs) 0
      (fun g batch hg => by simpa using h g batch hg)]
    exact subBatches_lengths_sum imgs
  · rw [processOpenAI_false, idxMap_length]

/-- C4 witness: with every sub-batch failing (fallbacks fire), two images
produce exactly two outcomes, configured or not. -/
theorem C4_witness :
    (processOpenAIOriginals true failingGroups ["http://a", "http://b"]
      "Товар" 0).length = (["http://a", "http://b"] : List String).length ∧
    (processOpenAIOriginals false failingGroups ["http://a", "http://b"]
      "Товар" 0).length = (["http://a", "http://b"] : List String).length :=
  C4_amended failingGroups ["http://a", "http://b"] "Товар" 0
    (fun _ _ _ => trivial)

/-! ### C2 — finisher pass-through when compression/hosting unconfigured -/

theorem processWebP_false (oracles : Nat → FinisherOracle)
    (enh : List EnhOutcome) (ana : List DescRes) :
    processUnifiedWebPOptimization false oracles enh ana =
      idxMap (fun index img =>
        let analysis := analysisAt ana index
        ⟨analysis.altTag, analysis.seoFilename, img.processed,
          if img.wasEnhanced then 7 else 5⟩) 0 enh := by
  unfold processUnifiedWebPOptimization
  rw [if_pos]
  simp

theorem processWebP_true (oracles : Nat → FinisherOracle)
    (enh : List EnhOutcome) (ana : List DescRes) :
    processUnifiedWebPOptimization true oracles enh ana =
      idxMap (fun index img =>
        let analysis := analysisAt ana index
        let o := oracles index
        if o.throws then
          ⟨analysis.altTag, analysis.seoFilename, img.processed, 3⟩
        else if o.webpSuccess ∧ o.uploadUrl ≠ "" then
          ⟨analysis.altTag, analysis.seoFilename, o.uploadUrl, 8⟩
        else
          ⟨analysis.altTag, analysis.seoFilename, img.processed,
            if img.wasEnhanced then 6 else 4⟩) 0 enh := by
  unfold processUnifiedWebPOptimization
  rw [if_neg]
  simp

/-- C2 counterexample: with compression/hosting unconfigured, an image
that *was* enhanced gets confidence 7 — not the claimed 5. -/
theorem C2_counterexample :
    (processUnifiedWebPOptimization false noFinisher
      [⟨"http://orig", "http://enh", true, none⟩] [⟨"alt", "seo"⟩]).map
        (·.confidence) = [7] ∧
    ¬((processUnifiedWebPOptimization false noFinisher
      [⟨"http://orig", "http://enh", true, none⟩] [⟨"alt", "seo"⟩]).map
        (·.confidence) = [5]) := by
  decide

/-- C2 amended: when the compression/hosting capability is unconfigured
(no TinyPNG or ImgBB key) the finisher passes each image's
enhancement-stage URL straight through as `processedImageUrl` and assigns
confidence 7 to enhanced images and 5 to non-enhanced ones. -/
theorem C2_amended (oracles : Nat → FinisherOracle) (enh : List EnhOutcome)
    (ana : List DescRes) :
    (processUnifiedWebPOptimization false oracles enh ana).map
      (·.processedImageUrl) = enh.map (·.processed) ∧
    (processUnifiedWebPOptimization false oracles enh ana).map
      (·.confidence) = enh.map (fun img => if img.wasEnhanced then 7 else 5) := by
  constructor
  · rw [processWebP_false, idxMap_map]
    exact idxMap_const (fun img => img.processed) _ (fun n a => rfl) enh 0
  · rw [processWebP_false, idxMap_map]
    exact idxMap_const (fun img => if img.wasEnhanced then 7 else 5) _
      (fun n a => rfl) enh 0

/-! ### C1 — never-empty `processedImageUrl` -/

/-- C1 counterexample: a product with no locatable images takes the
catastrophic-fallback path, whose single synthetic record has an *empty*
`processedImageUrl`. -/
theorem C1_counterexample :
    (analyzeImageSimple allOffConfig failingGroups (fun _ => rejectedSubmit)
      noFinisher emptyProduct 1700000000000).map (·.processedImageUrl) = [""] := by
  decide

theorem mem_idxMap {α β : Type} (f : Nat → α → β) :
    ∀ (l : List α) (i : Nat) (x : β), x ∈ idxMap f i l →
      ∃ n a, a ∈ l ∧ x = f n a := by
  intro l
  induction l with
  | nil => intro i x h; simp [idxMap] at h
  | cons b t ih =>
    intro i x h
    rcases List.mem_cons.mp h with he | ht
    · exact ⟨i, b, List.mem_cons_self _ _, he⟩
    · obtain ⟨n, a, ha, hx⟩ := ih (i + 1) x ht
      exact ⟨n, a, List.mem_cons_of_mem _ ha, hx⟩

theorem parseTier_http (s : String) : ∀ u ∈ parseTier s, startsWithHttp u = true := by
  intro u hu
  unfold parseTier at hu
  rw [List.mem_filter] at hu
  have := hu.2
  rw [Bool.and_eq_true] at this
  exact this.2

theorem startsWithHttp_ne_empty (u : String) (h : startsWithHttp u = true) :
    u ≠ "" := by
  intro he
  subst he
  exact absurd h (by decide)

theorem combine_mem_http (o s a : String) :
    ∀ u ∈ combineAllImages o s a, startsWithHttp u = true := by
  intro u hu
  rw [combine_eq_spec, dedupFirstSeen_mem] at hu
  unfold specHighestTier at hu
  split at hu
  · exact parseTier_http a u hu
  · split at hu
    · exact parseTier_http s u hu
    · exact parseTier_http o u hu

theorem waitReplicate_success_ne (replies : Nat → PollReply) (maxAttempts : Nat) :
    ∀ fuel attempts outp,
      (waitReplicateAux replies maxAttempts attempts fuel).1 = .success outp →
      outp ≠ "" := by
  intro fuel
  induction fuel with
  | zero => intro attempts outp h; exact absurd h (by simp [waitReplicateAux])
  | succ f ih =>
    intro attempts outp h
    simp only [waitReplicateAux] at h
    split at h
    · split at h
      · simp at h
      · split at h
        · rename_i hcond
          simp at h
          rw [← h]
          exact hcond.2
        · split at h
          · simp at h
          · exact ih (attempts + 1) outp h
    · simp at h

theorem processImage_processed_ne (oi : ReplicateImageOracle) (u : String)
    (hu : u ≠ "") : (processImage oi u).processed ≠ "" := by
  unfold processImage
  split
  · exact hu
  · split
    · rename_i outp hw
      exact waitReplicate_success_ne oi.pollReplies 120 120 0 outp hw
    · exact hu

theorem enhancer_processed_ne (c : Bool) (oracles : Nat → ReplicateImageOracle)
    (urls : List String) (hu : ∀ u ∈ urls, u ≠ "") :
    ∀ out ∈ processReplicateWithFallback c oracles urls, out.processed ≠ "" := by
  intro out hout
  cases c with
  | false =>
    rw [processReplicate_false] at hout
    rcases List.mem_map.mp hout with ⟨u, hum, he⟩
    rw [← he]
    exact hu u hum
  | true =>
    rw [processReplicate_true] at hout
    obtain ⟨n, u, hum, he⟩ := mem_idxMap _ urls 0 out hout
    rw [he]
    exact processImage_processed_ne (oracles n) u (hu u hum)

theorem finisher_url_ne (c : Bool) (oracles : Nat → FinisherOracle)
    (enh : List EnhOutcome) (ana : List DescRes)
    (he : ∀ e ∈ enh, e.processed ≠ "") :
    ∀ pr ∈ processUnifiedWebPOptimization c oracles enh ana,
      pr.processedImageUrl ≠ "" := by
  intro pr hpr
  cases c with
  | false =>
    rw [processWebP_false] at hpr
    obtain ⟨n, img, him, hprs⟩ := mem_idxMap _ enh 0 pr hpr
    rw [hprs]
    exact he img him
  | true =>
    rw [processWebP_true] at hpr
    obtain ⟨n, img, him, hprs⟩ := mem_idxMap _ enh 0 pr hpr
    rw [hprs]
    dsimp only
    split
    · exact he img him
    · split
      · rename_i hcond
        exact hcond.2
      · exact he img him

/-- C1 amended: every `PipelineResult` produced from a run whose locator
found at least one image has a non-empty `processedImageUrl` (each stage
passes through a non-empty URL on failure and truthiness checks guard the
externally supplied URLs); the synthetic last-resort record of a run with
*no* located images, however, carries an empty `processedImageUrl`. -/
theorem C1_amended (cfg : ApiConfig) (dOr : GroupOracle)
    (rOr : Nat → ReplicateImageOracle) (fOr : Nat → FinisherOracle)
    (p : Product) (ts : Nat)
    (h : combineAllImages p.originalImages p.supplierImages p.additionalImages ≠ []) :
    ∀ r ∈ analyzeImageSimple cfg dOr rOr fOr p ts, r.processedImageUrl ≠ "" := by
  intro r hr
  unfold analyzeImageSimple at hr
  rw [if_neg h] at hr
  refine finisher_url_ne cfg.webpConfigured fOr _ _ ?_ r hr
  refine enhancer_processed_ne cfg.replicateConfigured rOr _ ?_
  intro u hu
  have hmem : u ∈ combineAllImages p.originalImages p.supplierImages
      p.additionalImages := List.take_subset 10 _ hu
  exact startsWithHttp_ne_empty u
    (combine_mem_http p.originalImages p.supplierImages p.additionalImages u hmem)

/-- C1 witness: the amended theorem evaluated on a product with one
user-selected image and every capability unconfigured. -/
theorem C1_witness :
    combineAllImages httpProduct.originalImages httpProduct.supplierImages
      httpProduct.additionalImages ≠ [] ∧
    ∀ r ∈ analyzeImageSimple allOffConfig failingGroups (fun _ => rejectedSubmit)
      noFinisher httpProduct 1700000000000, r.processedImageUrl ≠ "" :=
  ⟨by decide,
   C1_amended allOffConfig failingGroups (fun _ => rejectedSubmit) noFinisher
     httpProduct 1700000000000 (by decide)⟩

end FotoProject
